import Mathlib

/-!
Shallow embedding of the Aspects backend (src/backend/server.js and the
second copy of the server in src/unnamed/part_000), with proofs of the
spec's testable properties.  JavaScript numbers are modelled as exact
rationals (ℚ); `Math.floor` is `Int.floor`, and the JS `%` operator is the
truncated remainder `x - y * trunc(x / y)`.
-/

/-- Truncation toward zero on ℚ, as used by the JS `%` operator on numbers. -/
def jsTrunc (x : ℚ) : ℤ := if 0 ≤ x then ⌊x⌋ else ⌈x⌉

/-- Embeds `norm360` (server.js lines 69–73): `v = x % 360; if (v < 0) v += 360;
return v`. -/
def norm360 (x : ℚ) : ℚ :=
  let v := x - 360 * (jsTrunc (x / 360) : ℚ)
  if v < 0 then v + 360 else v

/-- Embeds `minSeparation` (server.js lines 75–78):
`d = |norm360 a - norm360 b|; min d (360 - d)`.  The copy in part_000
(`angleDiff`, `if d > 180 then 360 - d else d`) computes the same value. -/
def minSeparation (a b : ℚ) : ℚ :=
  min (|norm360 a - norm360 b|) (360 - |norm360 a - norm360 b|)

/-- The local `Y` of `julianDay` (server.js lines 82–87). -/
def jdY (year month : ℤ) : ℤ := if month ≤ 2 then year - 1 else year

/-- The local `M` of `julianDay` (server.js lines 83–87). -/
def jdM (month : ℤ) : ℤ := if month ≤ 2 then month + 12 else month

/-- The local `A = Math.floor(Y / 100)` of `julianDay` (server.js line 88). -/
def jdA (year month : ℤ) : ℤ := ⌊(jdY year month : ℚ) / 100⌋

/-- The local `B = 2 - A + Math.floor(A / 4)` of `julianDay` (server.js line 89). -/
def jdB (year month : ℤ) : ℤ := 2 - jdA year month + ⌊(jdA year month : ℚ) / 4⌋

/-- Embeds `julianDay` (server.js lines 81–99, identical in part_000 lines 26–44). -/
def julianDay (year month day : ℤ) (hourUT : ℚ) : ℚ :=
  ((⌊(365.25 : ℚ) * ((jdY year month : ℚ) + 4716)⌋ : ℤ) : ℚ)
    + ((⌊(30.6001 : ℚ) * ((jdM month : ℚ) + 1)⌋ : ℤ) : ℚ)
    + (day : ℚ) + (jdB year month : ℚ) - 1524.5 + hourUT / 24

/-- The spec's wording of the standard Gregorian Julian Day algorithm (§4.2):
(Y, M) adjusted to the previous year's month + 12 when month ≤ 2,
A = floor(Y/100), B = 2 - A + floor(A/4), result
floor(365.25·(Y+4716)) + floor(30.6001·(M+1)) + day + B - 1524.5 + hourUT/24.
Stated separately so it can be compared with the source's `julianDay`. -/
def julianDaySpec (year month day : ℤ) (hourUT : ℚ) : ℚ :=
  let Y : ℤ := if month ≤ 2 then year - 1 else year
  let M : ℤ := if month ≤ 2 then month + 12 else month
  let A : ℤ := ⌊(Y : ℚ) / 100⌋
  let B : ℤ := 2 - A + ⌊(A : ℚ) / 4⌋
  ((⌊(365.25 : ℚ) * ((Y : ℚ) + 4716)⌋ : ℤ) : ℚ)
    + ((⌊(30.6001 : ℚ) * ((M : ℚ) + 1)⌋ : ℤ) : ℚ)
    + (day : ℚ) + (B : ℚ) - 1524.5 + hourUT / 24

/-- `norm360 x` is exactly the floored remainder `x - 360·⌊x/360⌋`: the
post-adjustment of the truncated remainder makes it agree with flooring. -/
theorem norm360_eq_sub_floor (x : ℚ) : norm360 x = x - 360 * (⌊x / 360⌋ : ℚ) := by
  have e : x = x / 360 * 360 := by ring
  by_cases h : 0 ≤ x / 360
  · have h1 : (⌊x / 360⌋ : ℚ) ≤ x / 360 := Int.floor_le _
    have hv : ¬ (x - 360 * (⌊x / 360⌋ : ℚ) < 0) := by linarith
    simp only [norm360, jsTrunc, if_pos h, hv, if_neg, if_false]
  · push_neg at h
    by_cases hq : (⌈x / 360⌉ : ℚ) = x / 360
    · have hfc : ⌊x / 360⌋ = ⌈x / 360⌉ := by
        conv_lhs => rw [← hq]
        exact Int.floor_intCast _
      have hv : ¬ (x - 360 * (jsTrunc (x / 360) : ℚ) < 0) := by
        simp only [jsTrunc, if_neg (not_le.mpr h)]
        rw [← hfc]
        have h1 : (⌊x / 360⌋ : ℚ) ≤ x / 360 := Int.floor_le _
        linarith
      simp only [norm360, jsTrunc, if_neg (not_le.mpr h)] at hv ⊢
      rw [if_neg hv, ← hfc]
    · have hlt : x / 360 < (⌈x / 360⌉ : ℚ) := lt_of_le_of_ne (Int.le_ceil _) (Ne.symm hq)
      have hfl : (⌊x / 360⌋ : ℚ) ≤ x / 360 := Int.floor_le _
      have hic : ⌊x / 360⌋ < ⌈x / 360⌉ := by exact_mod_cast lt_of_le_of_lt hfl hlt
      have hce : ⌈x / 360⌉ = ⌊x / 360⌋ + 1 :=
        le_antisymm (Int.ceil_le_floor_add_one _) (by omega)
      have hup : x / 360 < (⌊x / 360⌋ : ℚ) + 1 := Int.lt_floor_add_one _
      have hv : x - 360 * (jsTrunc (x / 360) : ℚ) < 0 := by
        simp only [jsTrunc, if_neg (not_le.mpr h), hce]
        push_cast
        linarith
      simp only [norm360, jsTrunc, if_neg (not_le.mpr h), hce] at hv ⊢
      rw [if_pos hv]
      push_cast
      push_cast at hv
      ring

/-- C7: for every rational x and every integer k, `norm360 x` lies in
[0, 360) and `norm360 (x + 360·k) = norm360 x`. -/
theorem norm360_range_and_periodic (x : ℚ) (k : ℤ) :
    0 ≤ norm360 x ∧ norm360 x < 360 ∧ norm360 (x + 360 * k) = norm360 x := by
  have e : x = x / 360 * 360 := by ring
  have h1 : (⌊x / 360⌋ : ℚ) ≤ x / 360 := Int.floor_le _
  have h2 : x / 360 < (⌊x / 360⌋ : ℚ) + 1 := Int.lt_floor_add_one _
  refine ⟨?_, ?_, ?_⟩
  · rw [norm360_eq_sub_floor]; linarith
  · rw [norm360_eq_sub_floor]; linarith
  · rw [norm360_eq_sub_floor, norm360_eq_sub_floor]
    rw [show (x + 360 * (k : ℚ)) / 360 = x / 360 + (k : ℚ) by ring]
    rw [Int.floor_add_int]
    push_cast
    ring

/-- C8: `minSeparation` is symmetric, always lies in [0, 180], and
`minSeparation 10 350 = 20` (the short way around the circle across 0°). -/
theorem minSeparation_symm_bounds (a b : ℚ) :
    minSeparation a b = minSeparation b a ∧ 0 ≤ minSeparation a b ∧
      minSeparation a b ≤ 180 ∧ minSeparation 10 350 = 20 := by
  have ha := norm360_range_and_periodic a 0
  have hb := norm360_range_and_periodic b 0
  have habs : |norm360 a - norm360 b| < 360 := by
    rw [abs_lt]; constructor <;> linarith [ha.1, ha.2.1, hb.1, hb.2.1]
  refine ⟨by rw [minSeparation, minSeparation, abs_sub_comm], ?_, ?_, ?_⟩
  · exact le_min (abs_nonneg _) (by linarith)
  · rcases le_total (|norm360 a - norm360 b|) 180 with hc | hc
    · exact le_trans (min_le_left _ _) hc
    · exact le_trans (min_le_right _ _) (by linarith)
  · have e10 : norm360 10 = 10 := by
      rw [norm360_eq_sub_floor]
      norm_num
    have e350 : norm360 350 = 350 := by
      rw [norm360_eq_sub_floor]
      norm_num
    rw [minSeparation, e10, e350]
    norm_num

/-- C5: the source's `julianDay` coincides with the spec's standard Gregorian
Julian Day formula on all inputs, and `julianDay 2000 1 1 12 = 2451545`
(the J2000.0 reference epoch). -/
theorem julianDay_matches_spec :
    (∀ (y m d : ℤ) (h : ℚ), julianDay y m d h = julianDaySpec y m d h) ∧
      julianDay 2000 1 1 12 = 2451545 := by
  constructor
  · intro y m d h
    rfl
  · rw [julianDay]
    norm_num [jdY, jdM, jdA, jdB]

/-- C9: for a fixed calendar date, `julianDay` is strictly increasing in
`hourUT`. -/
theorem julianDay_strictMono_hour (y m d : ℤ) (h1 h2 : ℚ) (hlt : h1 < h2) :
    julianDay y m d h1 < julianDay y m d h2 := by
  unfold julianDay
  linarith

/-- Witness for C9 at a concrete input. -/
theorem julianDay_strictMono_hour_witness :
    julianDay 2000 1 1 0 < julianDay 2000 1 1 1 :=
  julianDay_strictMono_hour 2000 1 1 0 1 (by norm_num)

/-- One entry of the fixed aspect catalog (server.js lines 127–133). -/
structure AspectDef where
  name : String
  deg : ℚ
deriving DecidableEq, Repr

/-- The fixed five-entry catalog `ASPECTS` (server.js lines 127–133). -/
def ASPECTS : List AspectDef :=
  [⟨"Conjunction", 0⟩, ⟨"Sextile", 60⟩, ⟨"Square", 90⟩, ⟨"Trine", 120⟩,
    ⟨"Opposition", 180⟩]

/-- The `best` record of the inner loop of `computeAspects` (server.js line 149):
`{ aspect, deg, orb }`. -/
structure BestSel where
  aspect : String
  deg : ℚ
  orb : ℚ
deriving DecidableEq, Repr

/-- One iteration of the inner `for (const asp of ASPECTS)` loop
(server.js lines 146–151): qualify with `off <= orbDeg`, replace `best` only
on strictly smaller `off`. -/
def stepBest (sep orbDeg : ℚ) (best : Option BestSel) (asp : AspectDef) : Option BestSel :=
  if |sep - asp.deg| ≤ orbDeg then
    match best with
    | none => some ⟨asp.name, asp.deg, |sep - asp.deg|⟩
    | some b =>
        if |sep - asp.deg| < b.orb then some ⟨asp.name, asp.deg, |sep - asp.deg|⟩
        else some b
  else best

/-- The value of `best` after the whole inner loop (server.js lines 145–151). -/
def bestAspect (sep orbDeg : ℚ) : Option BestSel :=
  ASPECTS.foldl (stepBest sep orbDeg) none

/-- `Number(x.toFixed(2))`: rounding to 2 decimal places.  `toFixed` rounds
ties away from zero; every quantity the program rounds is nonnegative, where
that is rounding half up. -/
def round2 (x : ℚ) : ℚ := ((⌊x * 100 + 1/2⌋ : ℤ) : ℚ) / 100

/-- The intensity classification (server.js lines 154–157):
`best.orb <= orbDeg * 0.33 ? "tight" : best.orb <= orbDeg * 0.66 ? "medium" : "wide"`. -/
def intensityOf (orb orbDeg : ℚ) : String :=
  if orb ≤ orbDeg * (0.33 : ℚ) then "tight"
  else if orb ≤ orbDeg * (0.66 : ℚ) then "medium"
  else "wide"

/-- One emitted aspect match (server.js lines 159–166). -/
structure AspectMatch where
  a : String
  aspect : String
  b : String
  separation : ℚ
  orb : ℚ
  intensity : String
deriving DecidableEq, Repr

/-- All pairs (i, j) with i < j of a list, in the enumeration order of the two
nested loops of `computeAspects` (server.js lines 139–140). -/
def pairsOf {α : Type} : List α → List (α × α)
  | [] => []
  | x :: xs => xs.map (fun y => (x, y)) ++ pairsOf xs

/-- The record pushed for one pair when `best` is set (server.js lines 143,
153–167): separation and orb are rounded for presentation, the intensity is
classified from the full-precision `best.orb`. -/
def matchOfPair (orbDeg : ℚ) (p : (String × ℚ) × (String × ℚ)) : Option AspectMatch :=
  (bestAspect (minSeparation p.1.2 p.2.2) orbDeg).map fun best =>
    ⟨p.1.1, best.aspect, p.2.1, round2 (minSeparation p.1.2 p.2.2), round2 best.orb,
      intensityOf best.orb orbDeg⟩

/-- The `out` array of `computeAspects` just before the final sort
(server.js lines 137–169). -/
def unsortedAspects (planets : List (String × ℚ)) (orbDeg : ℚ) : List AspectMatch :=
  (pairsOf planets).filterMap (matchOfPair orbDeg)

/-- The comparison of the final `out.sort((x, y) => x.orb - y.orb)`
(server.js line 171): ascending on the stored — already rounded — `orb` field. -/
def orbLE (x y : AspectMatch) : Prop := x.orb ≤ y.orb

instance : DecidableRel orbLE := fun x y => inferInstanceAs (Decidable (x.orb ≤ y.orb))

instance : IsTotal AspectMatch orbLE := ⟨fun a b => le_total a.orb b.orb⟩

instance : IsTrans AspectMatch orbLE := ⟨fun _ _ _ => le_trans⟩

/-- Embeds `computeAspects` (server.js lines 135–173).  `planets` is the
longitude map as an association list in object-insertion order.
`Array.prototype.sort` is required to be stable, so the final sort is
modelled by a stable sort on `orbLE`. -/
def computeAspects (planets : List (String × ℚ)) (orbDeg : ℚ) : List AspectMatch :=
  (unsortedAspects planets orbDeg).insertionSort orbLE

/-- A step of the inner loop starting from a set `best` always stays set. -/
theorem stepBest_some_isSome (sep tol : ℚ) (b : BestSel) (a : AspectDef) :
    ∃ b', stepBest sep tol (some b) a = some b' := by
  by_cases hq : |sep - a.deg| ≤ tol
  · by_cases hrep : |sep - a.deg| < b.orb
    · exact ⟨⟨a.name, a.deg, |sep - a.deg|⟩, by simp [stepBest, hq, hrep]⟩
    · exact ⟨b, by simp [stepBest, hq, hrep]⟩
  · exact ⟨b, by simp [stepBest, hq]⟩

/-- The inner loop starting from a set `best` ends with a set `best`. -/
theorem foldl_stepBest_some (sep tol : ℚ) :
    ∀ (l : List AspectDef) (b : BestSel),
      ∃ c, List.foldl (stepBest sep tol) (some b) l = some c := by
  intro l
  induction l with
  | nil => exact fun b => ⟨b, rfl⟩
  | cons a0 l ih =>
      intro b
      obtain ⟨b', hb'⟩ := stepBest_some_isSome sep tol b a0
      rw [List.foldl_cons, hb']
      exact ih b'

/-- The inner loop ends unset iff no entry of the traversed list qualifies. -/
theorem foldl_stepBest_none_iff (sep tol : ℚ) :
    ∀ l : List AspectDef,
      (List.foldl (stepBest sep tol) none l = none ↔ ∀ a ∈ l, tol < |sep - a.deg|) := by
  intro l
  induction l with
  | nil => simp
  | cons a0 l ih =>
      rw [List.foldl_cons]
      by_cases hq : |sep - a0.deg| ≤ tol
      · have hstep : stepBest sep tol none a0 = some ⟨a0.name, a0.deg, |sep - a0.deg|⟩ := by
          simp [stepBest, hq]
        rw [hstep]
        obtain ⟨c, hc⟩ := foldl_stepBest_some sep tol l ⟨a0.name, a0.deg, |sep - a0.deg|⟩
        rw [hc]
        constructor
        · intro h
          exact absurd h (by simp)
        · intro h
          exact absurd hq (not_le.mpr (h a0 (List.mem_cons_self _ _)))
      · have hstep : stepBest sep tol none a0 = none := by simp [stepBest, hq]
        rw [hstep, ih]
        constructor
        · intro h a ha
          rcases List.mem_cons.mp ha with rfl | ha'
          · exact not_le.mp hq
          · exact h a ha'
        · intro h a ha
          exact h a (List.mem_cons_of_mem _ ha)

/-- Invariant of the inner loop from a set accumulator `b` over a strictly
deg-sorted remainder whose degrees all exceed `b.deg`: the final selection
only improves, is minimal among qualifying entries, and ties never displace
an earlier selection. -/
theorem foldl_stepBest_from_some (sep tol : ℚ) :
    ∀ (l : List AspectDef) (b : BestSel), b.orb ≤ tol →
      List.Pairwise (fun p q : AspectDef => p.deg < q.deg) l →
      (∀ a ∈ l, b.deg < a.deg) →
      ∃ c, List.foldl (stepBest sep tol) (some b) l = some c ∧
        c.orb ≤ b.orb ∧
        (∀ a ∈ l, |sep - a.deg| ≤ tol → c.orb ≤ |sep - a.deg|) ∧
        (c = b ∨ ∃ a ∈ l, c = ⟨a.name, a.deg, |sep - a.deg|⟩ ∧ c.orb < b.orb) ∧
        (∀ a ∈ l, |sep - a.deg| = c.orb → c.deg ≤ a.deg) := by
  intro l
  induction l with
  | nil =>
      intro b hb _ _
      exact ⟨b, rfl, le_refl _, by simp, Or.inl rfl, by simp⟩
  | cons a0 l ih =>
      intro b hb hpair hlt
      rcases List.pairwise_cons.mp hpair with ⟨hhead, htail⟩
      have hlt0 : b.deg < a0.deg := hlt a0 (List.mem_cons_self _ _)
      have hltl : ∀ a ∈ l, b.deg < a.deg := fun a ha => hlt a (List.mem_cons_of_mem _ ha)
      rw [List.foldl_cons]
      by_cases hq : |sep - a0.deg| ≤ tol
      · by_cases hrep : |sep - a0.deg| < b.orb
        · have hstep :
              stepBest sep tol (some b) a0 = some ⟨a0.name, a0.deg, |sep - a0.deg|⟩ := by
            simp [stepBest, hq, hrep]
          rw [hstep]
          obtain ⟨c, hc, hc1, hc2, hc3, hc4⟩ := ih ⟨a0.name, a0.deg, |sep - a0.deg|⟩ hq htail hhead
          have hc1' : c.orb ≤ |sep - a0.deg| := hc1
          refine ⟨c, hc, le_of_lt (lt_of_le_of_lt hc1' hrep), ?_, ?_, ?_⟩
          · intro a ha hq'
            rcases List.mem_cons.mp ha with rfl | ha'
            · exact hc1'
            · exact hc2 a ha' hq'
          · rcases hc3 with hcb | ⟨a, ha, hca, horb⟩
            · refine Or.inr ⟨a0, List.mem_cons_self _ _, hcb, ?_⟩
              rw [hcb]
              exact hrep
            · have horb' : c.orb < |sep - a0.deg| := horb
              exact Or.inr ⟨a, List.mem_cons_of_mem _ ha, hca, lt_trans horb' hrep⟩
          · intro a ha hdev
            rcases List.mem_cons.mp ha with rfl | ha'
            · rcases hc3 with hcb | ⟨a', ha', hca, horb⟩
              · rw [hcb]
              · have horb' : c.orb < |sep - a.deg| := horb
                rw [hdev] at horb'
                exact absurd horb' (lt_irrefl _)
            · exact hc4 a ha' hdev
        · have hstep : stepBest sep tol (some b) a0 = some b := by
            simp [stepBest, hq, hrep]
          rw [hstep]
          obtain ⟨c, hc, hc1, hc2, hc3, hc4⟩ := ih b hb htail hltl
          push_neg at hrep
          refine ⟨c, hc, hc1, ?_, ?_, ?_⟩
          · intro a ha hq'
            rcases List.mem_cons.mp ha with rfl | ha'
            · exact le_trans hc1 hrep
            · exact hc2 a ha' hq'
          · rcases hc3 with hcb | ⟨a, ha, hca, horb⟩
            · exact Or.inl hcb
            · exact Or.inr ⟨a, List.mem_cons_of_mem _ ha, hca, horb⟩
          · intro a ha hdev
            rcases List.mem_cons.mp ha with rfl | ha'
            · rcases hc3 with hcb | ⟨a', ha', hca, horb⟩
              · rw [hcb]
                exact le_of_lt hlt0
              · exact absurd horb (not_lt.mpr (le_trans hrep (le_of_eq hdev)))
            · exact hc4 a ha' hdev
      · have hstep : stepBest sep tol (some b) a0 = some b := by
          simp [stepBest, hq]
        rw [hstep]
        obtain ⟨c, hc, hc1, hc2, hc3, hc4⟩ := ih b hb htail hltl
        refine ⟨c, hc, hc1, ?_, ?_, ?_⟩
        · intro a ha hq'
          rcases List.mem_cons.mp ha with rfl | ha'
          · exact absurd hq' hq
          · exact hc2 a ha' hq'
        · rcases hc3 with hcb | ⟨a, ha, hca, horb⟩
          · exact Or.inl hcb
          · exact Or.inr ⟨a, List.mem_cons_of_mem _ ha, hca, horb⟩
        · intro a ha hdev
          rcases List.mem_cons.mp ha with rfl | ha'
          · have hd : |sep - a.deg| ≤ tol := by
              rw [hdev]
              exact le_trans hc1 hb
            exact absurd hd hq
          · exact hc4 a ha' hdev

/-- The inner loop from an unset accumulator over a strictly deg-sorted list:
when it produces a selection, that selection is a qualifying entry of the
list with minimal deviation among qualifying entries, the earliest on a tie. -/
theorem foldl_stepBest_from_none (sep tol : ℚ) :
    ∀ l : List AspectDef, List.Pairwise (fun p q : AspectDef => p.deg < q.deg) l →
      ∀ m, List.foldl (stepBest sep tol) none l = some m →
        ∃ a ∈ l, m = ⟨a.name, a.deg, |sep - a.deg|⟩ ∧ |sep - a.deg| ≤ tol ∧
          (∀ a' ∈ l, |sep - a'.deg| ≤ tol → m.orb ≤ |sep - a'.deg|) ∧
          (∀ a' ∈ l, |sep - a'.deg| = m.orb → m.deg ≤ a'.deg) := by
  intro l
  induction l with
  | nil =>
      intro _ m hm
      exact absurd hm (by simp)
  | cons a0 l ih =>
      intro hpair m hm
      rcases List.pairwise_cons.mp hpair with ⟨hhead, htail⟩
      rw [List.foldl_cons] at hm
      by_cases hq : |sep - a0.deg| ≤ tol
      · have hstep : stepBest sep tol none a0 = some ⟨a0.name, a0.deg, |sep - a0.deg|⟩ := by
          simp [stepBest, hq]
        rw [hstep] at hm
        obtain ⟨c, hc, hc1, hc2, hc3, hc4⟩ :=
          foldl_stepBest_from_some sep tol l ⟨a0.name, a0.deg, |sep - a0.deg|⟩ hq htail hhead
        rw [hc] at hm
        injection hm with hmeq
        subst hmeq
        have hc1' : c.orb ≤ |sep - a0.deg| := hc1
        rcases hc3 with hcb | ⟨a, ha, hca, horb⟩
        · refine ⟨a0, List.mem_cons_self _ _, hcb, hq, ?_, ?_⟩
          · intro a' ha' hq'
            rcases List.mem_cons.mp ha' with rfl | ha''
            · exact hc1'
            · exact hc2 a' ha'' hq'
          · intro a' ha' hdev
            rcases List.mem_cons.mp ha' with rfl | ha''
            · rw [hcb]
            · exact hc4 a' ha'' hdev
        · have horb' : c.orb < |sep - a0.deg| := horb
          refine ⟨a, List.mem_cons_of_mem _ ha, hca, ?_, ?_, ?_⟩
          · have hco : c.orb ≤ tol := le_of_lt (lt_of_lt_of_le horb' hq)
            rw [hca] at hco
            exact hco
          · intro a' ha' hq'
            rcases List.mem_cons.mp ha' with rfl | ha''
            · exact le_of_lt horb'
            · exact hc2 a' ha'' hq'
          · intro a' ha' hdev
            rcases List.mem_cons.mp ha' with rfl | ha''
            · rw [hdev] at horb'
              exact absurd horb' (lt_irrefl _)
            · exact hc4 a' ha'' hdev
      · have hstep : stepBest sep tol none a0 = none := by simp [stepBest, hq]
        rw [hstep] at hm
        obtain ⟨a, ha, hma, hdev, hmin, htie⟩ := ih htail m hm
        refine ⟨a, List.mem_cons_of_mem _ ha, hma, hdev, ?_, ?_⟩
        · intro a' ha' hq'
          rcases List.mem_cons.mp ha' with rfl | ha''
          · exact absurd hq' hq
          · exact hmin a' ha'' hq'
        · intro a' ha' hdev'
          rcases List.mem_cons.mp ha' with rfl | ha''
          · have hmorb : m.orb ≤ tol := by
              rw [hma]
              exact hdev
            have hd : |sep - a'.deg| ≤ tol := by
              rw [hdev']
              exact hmorb
            exact absurd hd hq
          · exact htie a' ha'' hdev'

/-- C4: the inner loop considers exactly the fixed five-entry catalog: it
selects nothing iff every catalog entry's deviation from the pair's minimal
separation exceeds the tolerance — and then the pair contributes no match —
and otherwise it selects a within-tolerance entry of minimal deviation,
preferring the earlier (lower-degree) catalog entry on an exact tie. -/
theorem bestAspect_catalog_spec (sep tol : ℚ) :
    (bestAspect sep tol = none ↔ ∀ a ∈ ASPECTS, tol < |sep - a.deg|) ∧
      (∀ m, bestAspect sep tol = some m →
        ∃ a ∈ ASPECTS, m = ⟨a.name, a.deg, |sep - a.deg|⟩ ∧ |sep - a.deg| ≤ tol ∧
          (∀ a' ∈ ASPECTS, m.orb ≤ |sep - a'.deg|) ∧
          (∀ a' ∈ ASPECTS, |sep - a'.deg| = m.orb → m.deg ≤ a'.deg)) ∧
      (∀ p : (String × ℚ) × (String × ℚ),
        (∀ a ∈ ASPECTS, tol < |minSeparation p.1.2 p.2.2 - a.deg|) →
          matchOfPair tol p = none) := by
  have hpair : List.Pairwise (fun p q : AspectDef => p.deg < q.deg) ASPECTS := by
    norm_num [ASPECTS, List.pairwise_cons]
  refine ⟨foldl_stepBest_none_iff sep tol ASPECTS, ?_, ?_⟩
  · intro m hm
    obtain ⟨a, ha, hma, hdev, hmin, htie⟩ := foldl_stepBest_from_none sep tol ASPECTS hpair m hm
    refine ⟨a, ha, hma, hdev, ?_, htie⟩
    intro a' ha'
    rcases le_or_lt (|sep - a'.deg|) tol with hq' | hq'
    · exact hmin a' ha' hq'
    · have hmorb : m.orb ≤ tol := by
        rw [hma]
        exact hdev
      exact le_of_lt (lt_of_le_of_lt hmorb hq')
  · intro p hnone
    have h0 : bestAspect (minSeparation p.1.2 p.2.2) tol = none :=
      (foldl_stepBest_none_iff (minSeparation p.1.2 p.2.2) tol ASPECTS).mpr hnone
    simp [matchOfPair, h0]

/-- Witness for C4 at separation 90 and tolerance 4: the Square entry is
selected with deviation 0. -/
theorem bestAspect_catalog_spec_witness :
    ∃ a ∈ ASPECTS, (⟨"Square", 90, 0⟩ : BestSel) = ⟨a.name, a.deg, |(90 : ℚ) - a.deg|⟩ ∧
      |(90 : ℚ) - a.deg| ≤ 4 ∧
      (∀ a' ∈ ASPECTS, (⟨"Square", 90, 0⟩ : BestSel).orb ≤ |(90 : ℚ) - a'.deg|) ∧
      (∀ a' ∈ ASPECTS, |(90 : ℚ) - a'.deg| = (⟨"Square", 90, 0⟩ : BestSel).orb →
        (⟨"Square", 90, 0⟩ : BestSel).deg ≤ a'.deg) :=
  (bestAspect_catalog_spec 90 4).2.1 ⟨"Square", 90, 0⟩ (by
    norm_num [bestAspect, ASPECTS, stepBest])

/-- Embeds `parseDate` (server.js lines 101–106): the anchored pattern
`^(\d{4})-(\d{2})-(\d{2})$` with the three groups converted by `Number`. -/
def parseDate (s : String) : Option (ℤ × ℤ × ℤ) :=
  match s.data with
  | [y1, y2, y3, y4, '-', m1, m2, '-', d1, d2] =>
      if y1.isDigit ∧ y2.isDigit ∧ y3.isDigit ∧ y4.isDigit ∧
          m1.isDigit ∧ m2.isDigit ∧ d1.isDigit ∧ d2.isDigit then
        some ((1000 * (y1.toNat - 48) + 100 * (y2.toNat - 48) +
                10 * (y3.toNat - 48) + (y4.toNat - 48) : ℕ),
              (10 * (m1.toNat - 48) + (m2.toNat - 48) : ℕ),
              (10 * (d1.toNat - 48) + (d2.toNat - 48) : ℕ))
      else none
  | _ => none

/-- Embeds `normalizeTimeHHMM` (server.js lines 108–119): the prefix pattern
`^(\d{1,2}):(\d{2})` (trailing characters ignored), hour padded to two digits,
hour 0–23 and minute 0–59 enforced, result returned as the `"HH:MM"` string. -/
def normalizeTimeHHMM (timeStr : String) : Option String :=
  match timeStr.data with
  | c1 :: ':' :: m1 :: m2 :: _ =>
      if c1.isDigit ∧ m1.isDigit ∧ m2.isDigit then
        if c1.toNat - 48 ≤ 23 ∧ 10 * (m1.toNat - 48) + (m2.toNat - 48) ≤ 59 then
          some (String.mk ['0', c1, ':', m1, m2])
        else none
      else none
  | c1 :: c2 :: ':' :: m1 :: m2 :: _ =>
      if c1.isDigit ∧ c2.isDigit ∧ m1.isDigit ∧ m2.isDigit then
        if 10 * (c1.toNat - 48) + (c2.toNat - 48) ≤ 23 ∧
            10 * (m1.toNat - 48) + (m2.toNat - 48) ≤ 59 then
          some (String.mk [c1, c2, ':', m1, m2])
        else none
      else none
  | _ => none

/-- `hhmm.split(":").map(Number)` (server.js line 193), applied only to the
well-formed `"HH:MM"` strings produced by `normalizeTimeHHMM` or the literal
`"12:00"`. -/
def hhmmNums (s : String) : ℕ × ℕ :=
  match s.data with
  | [h1, h2, ':', m1, m2] =>
      (10 * (h1.toNat - 48) + (h2.toNat - 48), 10 * (m1.toNat - 48) + (m2.toNat - 48))
  | _ => (0, 0)

/-- Embeds `toNumber` (server.js lines 121–124).  A request's numeric field is
`Option (Option ℚ)`: the outer `none` is an absent field (`Number(undefined)`
is `NaN`), the inner `none` a non-finite numeric value; both fall back. -/
def toNumber (v : Option (Option ℚ)) (fallback : ℚ) : ℚ :=
  match v with
  | some (some q) => q
  | _ => fallback

/-- `timeStr.trim() !== ""` (server.js line 227): true iff the string has a
character that is not whitespace. -/
def jsTrimNonempty (s : String) : Bool :=
  s.data.any (fun c => !c.isWhitespace)

/-- The canonical body list of the `/api/chart` route (server.js lines 205–216),
name component only; the provider identifiers are configuration. -/
def bodiesList : List String :=
  ["Sun", "Moon", "Mercury", "Venus", "Mars", "Jupiter", "Saturn", "Uranus",
    "Neptune", "Pluto"]

/-- The per-body provider loop (server.js lines 218–223): query each body in
order, throw on the first provider error, store `norm360(r.data[0])`. -/
def collectPlanets (provider : ℚ → String → Except String ℚ) (jd : ℚ) :
    List String → Except String (List (String × ℚ))
  | [] => Except.ok []
  | b :: rest =>
      match provider jd b with
      | Except.error e => Except.error e
      | Except.ok lon =>
          match collectPlanets provider jd rest with
          | Except.error e => Except.error e
          | Except.ok tl => Except.ok ((b, norm360 lon) :: tl)

/-- The `meta` object of a successful response (server.js line 235). -/
structure ChartMeta where
  tzOffsetMinutes : ℚ
  orb : ℚ
  confidence : String
  note : Option String
deriving DecidableEq, Repr

/-- The `subject` object of a successful response (server.js line 236). -/
structure ChartSubject where
  date : String
  time : Option String
  locationText : String
deriving DecidableEq, Repr

/-- The body of a successful `/api/chart` response (server.js lines 233–240). -/
structure ChartPayload where
  meta : ChartMeta
  subject : ChartSubject
  jd : ℚ
  planets : List (String × ℚ)
  aspects : List AspectMatch
deriving DecidableEq, Repr

/-- A `/api/chart` response: `{ok: true, ...}` or `{ok: false, error}`
(server.js lines 233–243). -/
inductive ChartResponse where
  | ok (payload : ChartPayload)
  | err (error : String)
deriving DecidableEq, Repr

/-- `true` exactly on the `{ok: true}` branch. -/
def isOkResponse : ChartResponse → Bool
  | ChartResponse.ok _ => true
  | ChartResponse.err _ => false

/-- The effective timezone offset of a request (server.js line 184). -/
def chartTz (req_tz : Option (Option ℚ)) : ℚ := toNumber req_tz (-300)

/-- The effective `hhmm` of a request (server.js line 192):
`normalizeTimeHHMM(timeStr ?? "12:00") ?? "12:00"`. -/
def chartHHMM (time : Option String) : String :=
  (normalizeTimeHHMM (time.getD "12:00")).getD "12:00"

/-- The Julian Day computed by the route (server.js lines 195–200):
`hourUT = hh + mm/60 - tzOffsetMinutes/60`. -/
def chartJDOf (d : ℤ × ℤ × ℤ) (time : Option String) (req_tz : Option (Option ℚ)) : ℚ :=
  julianDay d.1 d.2.1 d.2.2
    (((hhmmNums (chartHHMM time)).1 : ℚ) + ((hhmmNums (chartHHMM time)).2 : ℚ) / 60 -
      chartTz req_tz / 60)

/-- A `/api/chart` request body (server.js lines 182–185). -/
structure ChartRequest where
  date : String
  time : Option String
  tzOffsetMinutes : Option (Option ℚ)
  orb : Option (Option ℚ)

/-- The advisory note used when no time was provided (server.js line 231). -/
def noTimeNote : String :=
  "No time provided; defaulted to 12:00. Moon/aspects can shift with time."

/-- Embeds the `POST /api/chart` handler (server.js lines 180–244), with the
external ephemeris provider abstracted as a function from Julian Day and body
name to a longitude or a provider error. -/
def chartHandler (provider : ℚ → String → Except String ℚ) (req : ChartRequest) :
    ChartResponse :=
  match parseDate req.date with
  | none => ChartResponse.err "Invalid date. Use YYYY-MM-DD."
  | some d =>
      match collectPlanets provider (chartJDOf d req.time req.tzOffsetMinutes) bodiesList with
      | Except.error e => ChartResponse.err e
      | Except.ok planets =>
          let timeProvided : Bool := match req.time with
            | some t => jsTrimNonempty t
            | none => false
          ChartResponse.ok
            { meta :=
                { tzOffsetMinutes := chartTz req.tzOffsetMinutes
                  orb := toNumber req.orb 4
                  confidence := if timeProvided then "high" else "low"
                  note := if timeProvided then none else some noTimeNote }
              subject :=
                { date := req.date
                  time := if timeProvided then some (chartHHMM req.time) else none
                  locationText := "Timezone offset only" }
              jd := chartJDOf d req.time req.tzOffsetMinutes
              planets := planets
              aspects := computeAspects planets (toNumber req.orb 4) }

/-- If some body of the list gets a provider error, the collection loop
returns the error of the first failing body. -/
theorem collectPlanets_error_of_mem (provider : ℚ → String → Except String ℚ) (jd : ℚ) :
    ∀ l : List String, (∃ b ∈ l, ∃ e, provider jd b = Except.error e) →
      ∃ e', collectPlanets provider jd l = Except.error e' := by
  intro l
  induction l with
  | nil =>
      rintro ⟨b, hb, _⟩
      exact absurd hb (List.not_mem_nil b)
  | cons b0 rest ih =>
      rintro ⟨b, hb, e, he⟩
      rcases List.mem_cons.mp hb with rfl | hb'
      · exact ⟨e, by simp [collectPlanets, he]⟩
      · cases hp : provider jd b0 with
        | error e0 => exact ⟨e0, by simp [collectPlanets, hp]⟩
        | ok lon =>
            obtain ⟨e', he'⟩ := ih ⟨b, hb', e, he⟩
            exact ⟨e', by simp [collectPlanets, hp, he']⟩

/-- C6: if the ephemeris provider fails for any one of the ten bodies, the
chart request answers with the structured failure `{ok: false, error}` — a
`ChartResponse.err` carries nothing but the message, so no partial chart
(planets or aspects) reaches the caller. -/
theorem chartHandler_fails_on_provider_error (provider : ℚ → String → Except String ℚ)
    (req : ChartRequest) (d : ℤ × ℤ × ℤ)
    (hd : parseDate req.date = some d)
    (hfail : ∃ b ∈ bodiesList, ∃ e,
        provider (chartJDOf d req.time req.tzOffsetMinutes) b = Except.error e) :
    ∃ msg, chartHandler provider req = ChartResponse.err msg := by
  obtain ⟨e', he'⟩ := collectPlanets_error_of_mem provider _ bodiesList hfail
  exact ⟨e', by simp [chartHandler, hd, he']⟩

/-- Witness for C6: a provider failing on the Moon fails the whole request. -/
theorem chartHandler_fails_on_provider_error_witness :
    ∃ msg, chartHandler
        (fun _ b => if b = "Moon" then Except.error "moshier error" else Except.ok 0)
        ⟨"2000-01-01", some "12:00", none, none⟩ = ChartResponse.err msg :=
  chartHandler_fails_on_provider_error _ _ (2000, 1, 1) (by decide)
    ⟨"Moon", by decide, "moshier error", rfl⟩

/-- The response shape claimed by C10: success with confidence "high", no
advisory note, and `"12:00"` echoed as the subject's time. -/
def reportsDefaultNoonHigh (r : ChartResponse) : Prop :=
  ∃ p, r = ChartResponse.ok p ∧ p.meta.confidence = "high" ∧ p.meta.note = none ∧
    p.subject.time = some "12:00"

/-- C10: a request whose non-empty time string fails to parse as a valid
HH:MM clock time is not rejected: the chart is computed at the default local
time 12:00, yet the response still reports confidence "high" with note null
and echoes "12:00" as the subject's time. -/
theorem chartHandler_invalid_time_defaults (provider : ℚ → String → Except String ℚ)
    (req : ChartRequest) (d : ℤ × ℤ × ℤ) (t : String) (pl : List (String × ℚ))
    (hd : parseDate req.date = some d)
    (ht : req.time = some t)
    (htrim : jsTrimNonempty t = true)
    (hbad : normalizeTimeHHMM t = none)
    (hok : collectPlanets provider (chartJDOf d req.time req.tzOffsetMinutes) bodiesList =
      Except.ok pl) :
    reportsDefaultNoonHigh (chartHandler provider req) := by
  rw [ht] at hok
  have hh : chartHHMM (some t) = "12:00" := by
    rw [chartHHMM]
    simp [hbad]
  have hhandler : chartHandler provider req = ChartResponse.ok
      { meta := { tzOffsetMinutes := chartTz req.tzOffsetMinutes, orb := toNumber req.orb 4,
                  confidence := "high", note := none },
        subject := { date := req.date, time := some "12:00",
                     locationText := "Timezone offset only" },
        jd := chartJDOf d (some t) req.tzOffsetMinutes,
        planets := pl,
        aspects := computeAspects pl (toNumber req.orb 4) } := by
    simp [chartHandler, hd, hok, ht, htrim, hh]
  exact ⟨_, hhandler, rfl, rfl, rfl⟩

/-- Witness for C10: time "99:99" (hour out of range) with an always-ok
provider yields the claimed high-confidence defaulted response. -/
theorem chartHandler_invalid_time_defaults_witness :
    reportsDefaultNoonHigh (chartHandler (fun _ _ => Except.ok 0)
      ⟨"2000-01-01", some "99:99", none, none⟩) :=
  chartHandler_invalid_time_defaults _ _ (2000, 1, 1) "99:99"
    [("Sun", norm360 0), ("Moon", norm360 0), ("Mercury", norm360 0), ("Venus", norm360 0),
      ("Mars", norm360 0), ("Jupiter", norm360 0), ("Saturn", norm360 0),
      ("Uranus", norm360 0), ("Neptune", norm360 0), ("Pluto", norm360 0)]
    (by decide) rfl (by decide) (by decide) rfl

/-- Counterexample to C2: a date with month 13 and day 40, an unparseable
time, and non-finite tzOffsetMinutes and orb are all accepted — the request
succeeds instead of failing fast with a descriptive error. -/
theorem chartHandler_lenient_validation_counterexample :
    isOkResponse (chartHandler (fun _ _ => Except.ok 0)
      ⟨"2020-13-40", some "99:99", some none, some none⟩) = true := rfl

/-- C2 (amended): only a date that fails the `YYYY-MM-DD` digit pattern is
rejected fast, before any time conversion or provider call, with the
descriptive error message. -/
theorem chartHandler_invalid_date_fails (provider : ℚ → String → Except String ℚ)
    (req : ChartRequest) (hd : parseDate req.date = none) :
    chartHandler provider req = ChartResponse.err "Invalid date. Use YYYY-MM-DD." := by
  simp [chartHandler, hd]

/-- Witness for the amended C2 at a malformed date. -/
theorem chartHandler_invalid_date_fails_witness :
    chartHandler (fun _ _ => Except.ok 0) ⟨"July 4", none, none, none⟩ =
      ChartResponse.err "Invalid date. Use YYYY-MM-DD." :=
  chartHandler_invalid_date_fails _ _ (by decide)

/-- Stability of one insertion step: inserting `x` never crosses an element
with the same `orb` value (it only skips elements with strictly smaller orb),
so filtering any orb class commutes with the insertion. -/
theorem orderedInsert_filter_orb (q : ℚ) (x : AspectMatch) :
    ∀ l : List AspectMatch,
      (List.orderedInsert orbLE x l).filter (fun m => m.orb = q) =
        (x :: l).filter (fun m => m.orb = q) := by
  intro l
  induction l with
  | nil => rfl
  | cons y l ih =>
      simp only [List.orderedInsert]
      by_cases hr : orbLE x y
      · rw [if_pos hr]
      · rw [if_neg hr]
        have hr' : ¬ (x.orb ≤ y.orb) := hr
        have hlt : y.orb < x.orb := not_le.mp hr'
        by_cases hx : x.orb = q
        · have hy : ¬ (y.orb = q) := by
            rw [← hx]
            exact ne_of_lt hlt
          simp [List.filter_cons, hx, hy, ih]
        · simp [List.filter_cons, hx, ih]

/-- Stability of the whole sort: for every orb value `q`, the matches whose
stored orb equals `q` appear in the sorted output in exactly the order they
were enumerated. -/
theorem insertionSort_filter_orb (q : ℚ) :
    ∀ l : List AspectMatch,
      (List.insertionSort orbLE l).filter (fun m => m.orb = q) =
        l.filter (fun m => m.orb = q) := by
  intro l
  induction l with
  | nil => rfl
  | cons x l ih =>
      simp only [List.insertionSort]
      rw [orderedInsert_filter_orb]
      simp only [List.filter_cons, ih]

/-- C3 (amended): `computeAspects` returns the enumerated matches reordered
ascending in the stored — already rounded — `orb` field: sorting happens
after `toFixed(2)`, not on full-precision orbs.  The output is a permutation
of the enumeration, and the sort is stable: for every orb value, the matches
carrying it keep their pair-enumeration order (i increasing, then j
increasing), which together with sortedness determines the output uniquely. -/
theorem computeAspects_sorted_by_rounded_orb (planets : List (String × ℚ)) (orbDeg : ℚ) :
    List.Sorted orbLE (computeAspects planets orbDeg) ∧
      (computeAspects planets orbDeg).Perm (unsortedAspects planets orbDeg) ∧
      (∀ q : ℚ, (computeAspects planets orbDeg).filter (fun m => m.orb = q) =
        (unsortedAspects planets orbDeg).filter (fun m => m.orb = q)) :=
  ⟨List.sorted_insertionSort orbLE _, List.perm_insertionSort orbLE _,
    fun q => insertionSort_filter_orb q _⟩

/-- Counterexample to C3: with longitudes A=0, B=60.004, C=90.001 and orb 4,
the pair (A,B) has full-precision orb 1/250 = 0.004 and the pair (A,C) has
full-precision orb 1/1000 = 0.001 < 0.004; both round to 0.00, and the output
keeps (A,B) before (A,C) — so the list is not sorted by the full-precision
orbs. -/
theorem computeAspects_fullPrecision_sort_counterexample :
    computeAspects [("A", 0), ("B", 60 + 1/250), ("C", 90 + 1/1000)] 4 =
      [⟨"A", "Sextile", "B", 60, 0, "tight"⟩, ⟨"A", "Square", "C", 90, 0, "tight"⟩] ∧
      bestAspect (minSeparation 0 (60 + 1/250)) 4 = some ⟨"Sextile", 60, 1/250⟩ ∧
      bestAspect (minSeparation 0 (90 + 1/1000)) 4 = some ⟨"Square", 90, 1/1000⟩ ∧
      (1/1000 : ℚ) < 1/250 := by
  have hsAB : minSeparation 0 (60 + 1/250) = 60 + 1/250 := by
    rw [minSeparation, norm360_eq_sub_floor, norm360_eq_sub_floor]
    norm_num [abs_of_nonneg, abs_of_nonpos, min_def]
  have hsAC : minSeparation 0 (90 + 1/1000) = 90 + 1/1000 := by
    rw [minSeparation, norm360_eq_sub_floor, norm360_eq_sub_floor]
    norm_num [abs_of_nonneg, abs_of_nonpos, min_def]
  have hsBC : minSeparation (60 + 1/250) (90 + 1/1000) = 29997 / 1000 := by
    rw [minSeparation, norm360_eq_sub_floor, norm360_eq_sub_floor]
    norm_num [abs_of_nonneg, abs_of_nonpos, min_def]
  have hbAB : bestAspect (60 + 1/250) 4 = some ⟨"Sextile", 60, 1/250⟩ := by
    norm_num [bestAspect, ASPECTS, stepBest, abs_of_nonneg, abs_of_nonpos]
  have hbAC : bestAspect (90 + 1/1000) 4 = some ⟨"Square", 90, 1/1000⟩ := by
    norm_num [bestAspect, ASPECTS, stepBest, abs_of_nonneg, abs_of_nonpos]
  have hbBC : bestAspect (29997 / 1000) 4 = none := by
    norm_num [bestAspect, ASPECTS, stepBest, abs_of_nonneg, abs_of_nonpos]
  have hmAB : matchOfPair 4 (("A", (0 : ℚ)), ("B", 60 + 1/250)) =
      some ⟨"A", "Sextile", "B", 60, 0, "tight"⟩ := by
    simp only [matchOfPair]
    rw [hsAB, hbAB]
    norm_num [round2, intensityOf]
  have hmAC : matchOfPair 4 (("A", (0 : ℚ)), ("C", 90 + 1/1000)) =
      some ⟨"A", "Square", "C", 90, 0, "tight"⟩ := by
    simp only [matchOfPair]
    rw [hsAC, hbAC]
    norm_num [round2, intensityOf]
  have hmBC : matchOfPair 4 (("B", 60 + 1/250), ("C", 90 + 1/1000)) = none := by
    simp only [matchOfPair]
    rw [hsBC, hbBC]
    rfl
  refine ⟨?_, by rw [hsAB]; exact hbAB, by rw [hsAC]; exact hbAC, by norm_num⟩
  have hpairs : pairsOf [("A", (0 : ℚ)), ("B", 60 + 1/250), ("C", 90 + 1/1000)] =
      [(("A", 0), ("B", 60 + 1/250)), (("A", 0), ("C", 90 + 1/1000)),
        (("B", 60 + 1/250), ("C", 90 + 1/1000))] := rfl
  rw [computeAspects, unsortedAspects, hpairs]
  simp only [List.filterMap_cons, List.filterMap_nil, hmAB, hmAC, hmBC]
  norm_num [List.insertionSort, List.orderedInsert, orbLE]

/-- C1 (amended): with a nonnegative tolerance, the intensity classifier uses
the multipliers 0.33 and 0.66 of the tolerance — not exact thirds — with
boundaries inclusive on the lower class, and every match emitted by
`computeAspects` carries an intensity computed by this classifier from a
nonnegative full-precision orb. -/
theorem intensityOf_classification (orb tol : ℚ) (htol : 0 ≤ tol) :
    (intensityOf orb tol = "tight" ↔ orb ≤ tol * (0.33 : ℚ)) ∧
      (intensityOf orb tol = "medium" ↔ tol * (0.33 : ℚ) < orb ∧ orb ≤ tol * (0.66 : ℚ)) ∧
      (intensityOf orb tol = "wide" ↔ tol * (0.66 : ℚ) < orb) ∧
      (∀ planets m, m ∈ computeAspects planets tol →
        ∃ o, 0 ≤ o ∧ m.intensity = intensityOf o tol) := by
  have h36 : tol * (0.33 : ℚ) ≤ tol * (0.66 : ℚ) := by nlinarith
  refine ⟨?_, ?_, ?_, ?_⟩
  · unfold intensityOf
    split_ifs with h1 h2
    · exact ⟨fun _ => h1, fun _ => rfl⟩
    · exact ⟨fun hx => absurd hx (by decide), fun hx => absurd hx h1⟩
    · exact ⟨fun hx => absurd hx (by decide), fun hx => absurd hx h1⟩
  · unfold intensityOf
    split_ifs with h1 h2
    · exact ⟨fun hx => absurd hx (by decide), fun hx => absurd h1 (not_le.mpr hx.1)⟩
    · exact ⟨fun _ => ⟨not_le.mp h1, h2⟩, fun _ => rfl⟩
    · exact ⟨fun hx => absurd hx (by decide), fun hx => absurd hx.2 h2⟩
  · unfold intensityOf
    split_ifs with h1 h2
    · exact ⟨fun hx => absurd hx (by decide),
        fun hw => absurd (le_trans h1 h36) (not_le.mpr hw)⟩
    · exact ⟨fun hx => absurd hx (by decide), fun hw => absurd h2 (not_le.mpr hw)⟩
    · exact ⟨fun _ => not_le.mp h2, fun _ => rfl⟩
  · intro planets m hm
    rw [computeAspects] at hm
    have hm' : m ∈ unsortedAspects planets tol :=
      (List.perm_insertionSort orbLE _).mem_iff.mp hm
    rw [unsortedAspects] at hm'
    obtain ⟨p, hp, hmp⟩ := List.mem_filterMap.mp hm'
    rw [matchOfPair] at hmp
    rcases hb : bestAspect (minSeparation p.1.2 p.2.2) tol with _ | best
    · rw [hb] at hmp
      simp at hmp
    · rw [hb] at hmp
      simp only [Option.map_some'] at hmp
      injection hmp with hmp
      refine ⟨best.orb, ?_, ?_⟩
      · have hpair5 : List.Pairwise (fun p q : AspectDef => p.deg < q.deg) ASPECTS := by
          norm_num [ASPECTS, List.pairwise_cons]
        obtain ⟨a, _, hba, _, _, _⟩ :=
          foldl_stepBest_from_none (minSeparation p.1.2 p.2.2) tol ASPECTS hpair5 best hb
        rw [hba]
        exact abs_nonneg _
      · rw [← hmp]

/-- Witness for the amended C1 at orb 1 and tolerance 4. -/
theorem intensityOf_classification_witness :
    (intensityOf 1 4 = "tight" ↔ (1 : ℚ) ≤ 4 * (0.33 : ℚ)) ∧
      (intensityOf 1 4 = "medium" ↔ 4 * (0.33 : ℚ) < 1 ∧ (1 : ℚ) ≤ 4 * (0.66 : ℚ)) ∧
      (intensityOf 1 4 = "wide" ↔ 4 * (0.66 : ℚ) < 1) ∧
      (∀ planets m, m ∈ computeAspects planets 4 →
        ∃ o, 0 ≤ o ∧ m.intensity = intensityOf o 4) :=
  intensityOf_classification 1 4 (by norm_num)

/-- Counterexample to C1: with tolerance 3 the pair A=0, B=61 matches Sextile
with full-precision orb 1; thirds boundaries would make it "tight"
(1 ≤ (1/3)·3), but the code classifies it "medium" because 1 > 3·0.33. -/
theorem intensityOf_thirds_counterexample :
    computeAspects [("A", 0), ("B", 61)] 3 =
      [⟨"A", "Sextile", "B", 61, 1, "medium"⟩] ∧ (1 : ℚ) ≤ (1/3) * 3 := by
  constructor
  · have hs : minSeparation 0 61 = 61 := by
      rw [minSeparation, norm360_eq_sub_floor, norm360_eq_sub_floor]
      norm_num
    have hb : bestAspect 61 3 = some ⟨"Sextile", 60, 1⟩ := by
      norm_num [bestAspect, ASPECTS, stepBest]
    have hmp : matchOfPair 3 (("A", (0 : ℚ)), ("B", (61 : ℚ))) =
        some ⟨"A", "Sextile", "B", 61, 1, "medium"⟩ := by
      simp only [matchOfPair]
      rw [hs, hb]
      norm_num [round2, intensityOf]
    rw [computeAspects, unsortedAspects]
    simp [pairsOf, hmp, List.insertionSort, List.orderedInsert]
  · norm_num
